import Mathlib

/-!
Verification of the `PrefixEncoder` module of
`src/src/peft/tuners/prefix_tuning.py` (a prefix-tuning variant with
optional residual connections).

Shallow embedding choices:

* Tensors are modelled over `ℚ` (the claims under study are about shapes,
  control flow, error behaviour and exact algebraic identities, none of
  which depend on floating-point rounding).
* An index tensor of shape `(batch, n)` is a `List (List Int)`; a value
  tensor of shape `(batch, n, d)` is a `List (List (List ℚ))`.
* `torch.nn.Linear(in, out)` holds a weight matrix of shape `(out, in)`
  and a bias vector of length `out`; application is affine on the last
  dimension.  The nonlinear activations `tanh`, `relu` and the
  `LayerNorm` normalisation are not exactly representable over `ℚ`, so
  the model is parameterised by an `Acts` record carrying them as
  abstract functions (`LayerNorm` preserves the length of its input,
  which is taken as a hypothesis where a theorem needs it).
* Random parameter initialisation is modelled by a `ParamInit` record of
  arbitrary value-supply functions; construction fixes every shape
  exactly as `PrefixEncoder.__init__` does while leaving values free.
* `torch.nn.Embedding` lookup raises `IndexError` on a negative index or
  an index `≥ num_embeddings`; `torch.nn.Linear` raises a `TypeError` at
  construction when a dimension is `None` (the unset
  `encoder_hidden_size`).  Fallible operations therefore return
  `Except PEError _`.
-/

/-- Errors the embedded module can raise.  `invalidDim` models the
`TypeError` raised by `torch.nn.Linear` when a dimension argument is
`None` (an unset `encoder_hidden_size`); `indexOutOfRange` models the
`IndexError` of an embedding lookup; `missingModule` models an
`AttributeError` when `forward` touches a submodule the chosen topology
never allocated. -/
inductive PEError where
  | invalidDim
  | indexOutOfRange
  | missingModule
deriving DecidableEq, Repr

/-- Elementwise sum of two vectors, as produced by tensor `+`. -/
def addVec (a b : List ℚ) : List ℚ :=
  List.zipWith (· + ·) a b

/-- A `torch.nn.Linear` module: weight of shape `(out, in)`, bias of
length `out`. -/
structure Linear where
  weight : List (List ℚ)
  bias : List ℚ
deriving DecidableEq, Repr

/-- Inner product used by `linearApply`. -/
def dotProd (a b : List ℚ) : ℚ :=
  (List.zipWith (· * ·) a b).sum

/-- Application of a linear module to a vector (the last tensor
dimension): each output coordinate is a weight-row dot the input plus
the bias coordinate. -/
def linearApply (l : Linear) (v : List ℚ) : List ℚ :=
  (l.weight.zip l.bias).map (fun rb => dotProd rb.1 v + rb.2)

/-- Matrix of shape `(r, c)` filled from a value supply. -/
def mkMat (f : Nat → Nat → ℚ) (r c : Nat) : List (List ℚ) :=
  (List.range r).map (fun i => (List.range c).map (f i))

/-- Vector of length `n` filled from a value supply. -/
def mkVec (f : Nat → ℚ) (n : Nat) : List ℚ :=
  (List.range n).map f

/-- A freshly constructed `torch.nn.Linear(inF, outF)`: weight shape
`(outF, inF)`, bias length `outF`, values from the supply. -/
def mkLinear (wf : Nat → Nat → ℚ) (bf : Nat → ℚ) (inF outF : Nat) : Linear :=
  { weight := mkMat wf outF inF, bias := mkVec bf outF }

/-- Effectful map over a list in the `Except` monad: the first failing
element aborts the whole map (the semantics of a tensor op that raises). -/
def mapEx (f : α → Except PEError β) : List α → Except PEError (List β)
  | [] => .ok []
  | a :: as =>
    match f a with
    | .error e => .error e
    | .ok b =>
      match mapEx f as with
      | .error e => .error e
      | .ok bs => .ok (b :: bs)

/-- Lookup of one index in an embedding table
(`torch.nn.Embedding.forward` elementwise): raises `IndexError` when the
index is negative or not below the number of rows. -/
def embedLookup (table : List (List ℚ)) (i : Int) : Except PEError (List ℚ) :=
  if 0 ≤ i then
    match table.get? i.toNat with
    | some row => .ok row
    | none => .error .indexOutOfRange
  else
    .error .indexOutOfRange

/-- The abstract nonlinearities of the module.  `layerNorm` stands for
the `torch.nn.LayerNorm(token_dim)` normalisation over the last
dimension (its learnable affine part is absorbed into the function). -/
structure Acts where
  tanh : ℚ → ℚ
  relu : ℚ → ℚ
  layerNorm : List ℚ → List ℚ

/-- The configuration record `PrefixTuningConfig` (with the inherited
`PromptLearningConfig` fields the encoder reads).  `encoder_hidden_size`
defaults to `None` in the source, hence `Option Nat`. -/
structure PrefixTuningConfig where
  token_dim : Nat
  num_layers : Nat
  num_virtual_tokens : Nat
  encoder_hidden_size : Option Nat
  prefix_projection : Bool
  use_residual_connect : Bool
  use_residual_block : Bool
  inference_mode : Bool
deriving DecidableEq, Repr

/-- Stage A of the residual paths: `transform_1` is a single
`Linear(token_dim, token_dim)` in the residual-connect branch, and the
sequential block `Linear / ReLU / Linear / LayerNorm` in the
residual-block branch. -/
inductive Stage1 where
  | single (l : Linear)
  | block (l1 l2 : Linear)
deriving DecidableEq, Repr

/-- Application of `transform_1` to one vector. -/
def applyStage1 (acts : Acts) : Stage1 → List ℚ → List ℚ
  | .single l, v => linearApply l v
  | .block l1 l2, v =>
    acts.layerNorm (linearApply l2 ((linearApply l1 v).map acts.relu))

/-- Application of `transform_2 = Sequential(Tanh, Linear)` to one
vector. -/
def applyTransform2 (acts : Acts) (l : Linear) (v : List ℚ) : List ℚ :=
  linearApply l (v.map acts.tanh)

/-- Application of the plain-projection
`transform = Sequential(Linear, Tanh, Linear)` to one vector. -/
def applyTransform (acts : Acts) (t : Linear × Linear) (v : List ℚ) : List ℚ :=
  linearApply t.2 ((linearApply t.1 v).map acts.tanh)

/-- The residual sum `x = transform_1(prefix_tokens) + prefix_tokens`
computed on line 141-142 of the source, per embedding vector. -/
def residualInput (acts : Acts) (s : Stage1) (v : List ℚ) : List ℚ :=
  addVec (applyStage1 acts s v) v

/-- The constructed `PrefixEncoder` object: the three flags copied from
the configuration, the embedding table, and the optional submodules
(`None` models a Python attribute that the chosen branch never
assigned). -/
structure PrefixEncoder where
  prefix_projection : Bool
  use_res_connect : Bool
  use_res_block : Bool
  embedding : List (List ℚ)
  transform_1 : Option Stage1
  transform_2 : Option Linear
  transform : Option (Linear × Linear)
deriving DecidableEq, Repr

/-- Random value supplies for the learnable parameters allocated by
`__init__` (one slot per module position; construction fixes the
shapes, the values are arbitrary). -/
structure ParamInit where
  embW : Nat → Nat → ℚ
  t1W : Nat → Nat → ℚ
  t1B : Nat → ℚ
  t1W2 : Nat → Nat → ℚ
  t1B2 : Nat → ℚ
  t2W : Nat → Nat → ℚ
  t2B : Nat → ℚ

/-- `PrefixEncoder.__init__` (source lines 91-133).  Branches exactly as
the source: projection active iff `prefix_projection and not
inference_mode`; then `use_res_connect` takes the first branch,
`use_res_block` the second, else the plain two-layer MLP.  Building a
`Linear` whose dimension is the unset `encoder_hidden_size` fails with
`invalidDim` (torch raises `TypeError` inside `nn.Linear` at that
point, i.e. during construction). -/
def PrefixEncoder.init (cfg : PrefixTuningConfig) (p : ParamInit) :
    Except PEError PrefixEncoder :=
  if cfg.prefix_projection && !cfg.inference_mode then
    let embedding := mkMat p.embW cfg.num_virtual_tokens cfg.token_dim
    if cfg.use_residual_connect then
      .ok { prefix_projection := cfg.prefix_projection,
            use_res_connect := cfg.use_residual_connect,
            use_res_block := cfg.use_residual_block,
            embedding := embedding,
            transform_1 := some (.single
              (mkLinear p.t1W p.t1B cfg.token_dim cfg.token_dim)),
            transform_2 := some
              (mkLinear p.t2W p.t2B cfg.token_dim
                (cfg.num_layers * 2 * cfg.token_dim)),
            transform := none }
    else if cfg.use_residual_block then
      match cfg.encoder_hidden_size with
      | none => .error .invalidDim
      | some h =>
        .ok { prefix_projection := cfg.prefix_projection,
              use_res_connect := cfg.use_residual_connect,
              use_res_block := cfg.use_residual_block,
              embedding := embedding,
              transform_1 := some (.block
                (mkLinear p.t1W p.t1B cfg.token_dim h)
                (mkLinear p.t1W2 p.t1B2 h cfg.token_dim)),
              transform_2 := some
                (mkLinear p.t2W p.t2B cfg.token_dim
                  (cfg.num_layers * 2 * cfg.token_dim)),
              transform := none }
    else
      match cfg.encoder_hidden_size with
      | none => .error .invalidDim
      | some h =>
        .ok { prefix_projection := cfg.prefix_projection,
              use_res_connect := cfg.use_residual_connect,
              use_res_block := cfg.use_residual_block,
              embedding := embedding,
              transform_1 := none,
              transform_2 := none,
              transform := some
                (mkLinear p.t1W p.t1B cfg.token_dim h,
                 mkLinear p.t2W p.t2B h
                   (cfg.num_layers * 2 * cfg.token_dim)) }
  else
    .ok { prefix_projection := cfg.prefix_projection,
          use_res_connect := cfg.use_residual_connect,
          use_res_block := cfg.use_residual_block,
          embedding := mkMat p.embW cfg.num_virtual_tokens
            (cfg.num_layers * 2 * cfg.token_dim),
          transform_1 := none,
          transform_2 := none,
          transform := none }

/-- `PrefixEncoder.forward` (source lines 135-149) on an index tensor of
shape `(batch, k)`.  The embedding lookup runs first; the residual
branch is taken when `use_res_connect or use_res_block`, computing
`transform_2(transform_1(prefix_tokens) + prefix_tokens)`; otherwise
the plain `transform` applies; without projection the lookup itself is
returned. -/
def PrefixEncoder.forward (acts : Acts) (e : PrefixEncoder)
    (idx : List (List Int)) : Except PEError (List (List (List ℚ))) :=
  if e.prefix_projection then
    match mapEx (mapEx (embedLookup e.embedding)) idx with
    | .error c => .error c
    | .ok prefix_tokens =>
      if e.use_res_connect || e.use_res_block then
        match e.transform_1, e.transform_2 with
        | some s, some l2 =>
          .ok (prefix_tokens.map (fun row =>
            row.map (fun v => applyTransform2 acts l2 (residualInput acts s v))))
        | _, _ => .error .missingModule
      else
        match e.transform with
        | some t =>
          .ok (prefix_tokens.map (fun row => row.map (applyTransform acts t)))
        | none => .error .missingModule
  else
    mapEx (mapEx (embedLookup e.embedding)) idx

/-- The method call viewed as a state transformer on the module object:
the body of `forward` contains no assignment to `self` (it only reads
`self.prefix_projection`, `self.use_res_connect`, `self.use_res_block`,
`self.embedding` and the transform submodules), so the post-state is
the pre-state. -/
def PrefixEncoder.forwardCall (acts : Acts) (e : PrefixEncoder)
    (idx : List (List Int)) :
    PrefixEncoder × Except PEError (List (List (List ℚ))) :=
  (e, e.forward acts idx)

/-- Shape predicate for a rank-3 value tensor. -/
def tensor3Shape (t : List (List (List ℚ))) (b n d : Nat) : Prop :=
  t.length = b ∧ ∀ row ∈ t, row.length = n ∧ ∀ v ∈ row, v.length = d

/-! ### Concrete instances used as evaluation witnesses -/

/-- All-zero parameter supplies (one concrete random draw). -/
def p0 : ParamInit :=
  { embW := fun _ _ => 0, t1W := fun _ _ => 0, t1B := fun _ => 0,
    t1W2 := fun _ _ => 0, t1B2 := fun _ => 0,
    t2W := fun _ _ => 0, t2B := fun _ => 0 }

/-- One concrete instantiation of the abstract nonlinearities (their
exact values are irrelevant to the properties under test). -/
def acts0 : Acts :=
  { tanh := fun q => q, relu := fun q => q, layerNorm := fun v => v }

/-- The concrete scenario of the spec: `token_dim=4, num_layers=2,
num_virtual_tokens=3, encoder_hidden_size=8, prefix_projection=True`,
both residual flags false, `inference_mode=False`. -/
def cfgPlain : PrefixTuningConfig :=
  { token_dim := 4, num_layers := 2, num_virtual_tokens := 3,
    encoder_hidden_size := some 8, prefix_projection := true,
    use_residual_connect := false, use_residual_block := false,
    inference_mode := false }

/-- The encoder `__init__` builds from `cfgPlain` with supplies `p0`. -/
def encPlain : PrefixEncoder :=
  { prefix_projection := true, use_res_connect := false,
    use_res_block := false,
    embedding := mkMat p0.embW 3 4,
    transform_1 := none, transform_2 := none,
    transform := some (mkLinear p0.t1W p0.t1B 4 8,
                       mkLinear p0.t2W p0.t2B 8 16) }

/-- A small configuration without projection. -/
def cfgNoProj : PrefixTuningConfig :=
  { token_dim := 1, num_layers := 1, num_virtual_tokens := 2,
    encoder_hidden_size := none, prefix_projection := false,
    use_residual_connect := false, use_residual_block := false,
    inference_mode := false }

/-- The encoder built from `cfgNoProj`: only the wide embedding table. -/
def encNoProj : PrefixEncoder :=
  { prefix_projection := false, use_res_connect := false,
    use_res_block := false,
    embedding := mkMat p0.embW 2 2,
    transform_1 := none, transform_2 := none, transform := none }

/-- A configuration with `prefix_projection = true` together with
`inference_mode = true` (construction takes the no-projection branch
but `forward` still takes the projection branch). -/
def cfgInfProj : PrefixTuningConfig :=
  { token_dim := 1, num_layers := 1, num_virtual_tokens := 1,
    encoder_hidden_size := none, prefix_projection := true,
    use_residual_connect := false, use_residual_block := false,
    inference_mode := true }

/-- The encoder built from `cfgInfProj`: wide embedding, no transform
modules, yet `prefix_projection = true`. -/
def encInfProj : PrefixEncoder :=
  { prefix_projection := true, use_res_connect := false,
    use_res_block := false,
    embedding := mkMat p0.embW 1 2,
    transform_1 := none, transform_2 := none, transform := none }

/-- A small residual-connect configuration with unset
`encoder_hidden_size`. -/
def cfgRes : PrefixTuningConfig :=
  { token_dim := 1, num_layers := 1, num_virtual_tokens := 2,
    encoder_hidden_size := none, prefix_projection := true,
    use_residual_connect := true, use_residual_block := false,
    inference_mode := false }

/-- The encoder built from `cfgRes`. -/
def encRes : PrefixEncoder :=
  { prefix_projection := true, use_res_connect := true,
    use_res_block := false,
    embedding := mkMat p0.embW 2 1,
    transform_1 := some (.single (mkLinear p0.t1W p0.t1B 1 1)),
    transform_2 := some (mkLinear p0.t2W p0.t2B 1 2),
    transform := none }

/-- A configuration with both residual flags set true. -/
def cfgBoth : PrefixTuningConfig :=
  { token_dim := 1, num_layers := 1, num_virtual_tokens := 2,
    encoder_hidden_size := none, prefix_projection := true,
    use_residual_connect := true, use_residual_block := true,
    inference_mode := false }

/-- A residual-block configuration whose `encoder_hidden_size` is
unset. -/
def cfgBlockNoHidden : PrefixTuningConfig :=
  { token_dim := 1, num_layers := 1, num_virtual_tokens := 2,
    encoder_hidden_size := none, prefix_projection := true,
    use_residual_connect := false, use_residual_block := true,
    inference_mode := false }

/-! ### Basic shape lemmas -/

lemma mkMat_length (f : Nat → Nat → ℚ) (r c : Nat) :
    (mkMat f r c).length = r := by
  simp [mkMat]

lemma mkMat_mem_length {f : Nat → Nat → ℚ} {r c : Nat} {row : List ℚ}
    (h : row ∈ mkMat f r c) : row.length = c := by
  simp only [mkMat, List.mem_map] at h
  obtain ⟨i, _, rfl⟩ := h
  simp

lemma mkVec_length (f : Nat → ℚ) (n : Nat) : (mkVec f n).length = n := by
  simp [mkVec]

lemma linearApply_length (l : Linear) (v : List ℚ) :
    (linearApply l v).length = min l.weight.length l.bias.length := by
  simp [linearApply]

lemma linearApply_mkLinear_length (wf : Nat → Nat → ℚ) (bf : Nat → ℚ)
    (i o : Nat) (v : List ℚ) :
    (linearApply (mkLinear wf bf i o) v).length = o := by
  simp [linearApply_length, mkLinear, mkMat_length, mkVec_length]

lemma applyTransform2_mkLinear_length (acts : Acts) (wf : Nat → Nat → ℚ)
    (bf : Nat → ℚ) (i o : Nat) (v : List ℚ) :
    (applyTransform2 acts (mkLinear wf bf i o) v).length = o := by
  simp [applyTransform2, linearApply_mkLinear_length]

/-! ### Lemmas on `mapEx` and `embedLookup` -/

lemma mapEx_forall2 {f : α → Except PEError β} :
    ∀ {l : List α} {bs : List β}, mapEx f l = .ok bs →
      List.Forall₂ (fun a b => f a = .ok b) l bs := by
  intro l
  induction l with
  | nil =>
    intro bs h
    simp only [mapEx] at h
    cases h
    exact List.Forall₂.nil
  | cons a as ih =>
    intro bs h
    simp only [mapEx] at h
    cases hfa : f a with
    | error e => rw [hfa] at h; cases h
    | ok b =>
      rw [hfa] at h
      cases hrec : mapEx f as with
      | error e => rw [hrec] at h; cases h
      | ok cs =>
        rw [hrec] at h
        cases h
        exact List.Forall₂.cons hfa (ih hrec)

lemma mapEx_ok_exists {f : α → Except PEError β} :
    ∀ {l : List α}, (∀ a ∈ l, ∃ b, f a = .ok b) →
      ∃ bs, mapEx f l = .ok bs := by
  intro l
  induction l with
  | nil => intro _; exact ⟨[], rfl⟩
  | cons a as ih =>
    intro h
    obtain ⟨b, hb⟩ := h a (List.mem_cons_self a as)
    obtain ⟨bs, hbs⟩ := ih (fun x hx => h x (List.mem_cons_of_mem a hx))
    exact ⟨b :: bs, by simp [mapEx, hb, hbs]⟩

lemma mapEx_error_of {f : α → Except PEError β} {c : PEError} :
    ∀ {l : List α},
      (∀ a ∈ l, ∀ e, f a = .error e → e = c) →
      (∃ a ∈ l, f a = .error c) →
      mapEx f l = .error c := by
  intro l
  induction l with
  | nil => intro _ hex; simp at hex
  | cons a as ih =>
    intro hall hex
    cases hfa : f a with
    | error e =>
      have : e = c := hall a (List.mem_cons_self a as) e hfa
      subst this
      simp [mapEx, hfa]
    | ok b =>
      obtain ⟨x, hx, hxe⟩ := hex
      rcases List.mem_cons.mp hx with rfl | hx'
      · rw [hfa] at hxe; cases hxe
      · have hrec := ih (fun y hy => hall y (List.mem_cons_of_mem a hy))
          ⟨x, hx', hxe⟩
        simp [mapEx, hfa, hrec]

lemma mapEx_error_mem {f : α → Except PEError β} {c : PEError} :
    ∀ {l : List α}, mapEx f l = .error c → ∃ a ∈ l, f a = .error c := by
  intro l
  induction l with
  | nil => intro h; simp [mapEx] at h
  | cons a as ih =>
    intro h
    cases hfa : f a with
    | error e =>
      rw [mapEx, hfa] at h
      cases h
      exact ⟨a, List.mem_cons_self a as, hfa⟩
    | ok b =>
      rw [mapEx, hfa] at h
      cases hrec : mapEx f as with
      | error e =>
        rw [hrec] at h
        cases h
        obtain ⟨x, hx, hxe⟩ := ih hrec
        exact ⟨x, List.mem_cons_of_mem a hx, hxe⟩
      | ok bs => rw [hrec] at h; cases h

lemma embedLookup_ok_mem {tbl : List (List ℚ)} {i : Int} {r : List ℚ}
    (h : embedLookup tbl i = .ok r) : r ∈ tbl := by
  unfold embedLookup at h
  split at h
  · cases hg : tbl.get? i.toNat with
    | none => rw [hg] at h; cases h
    | some row =>
      rw [hg] at h
      cases h
      exact List.get?_mem hg
  · cases h

lemma embedLookup_ok_of_inRange {tbl : List (List ℚ)} {i : Int}
    (h0 : 0 ≤ i) (hlt : i.toNat < tbl.length) :
    ∃ r, embedLookup tbl i = .ok r := by
  unfold embedLookup
  rw [if_pos h0]
  cases hg : tbl.get? i.toNat with
  | none =>
    exact absurd (List.get?_eq_none.mp hg) (Nat.not_le_of_lt hlt)
  | some row => exact ⟨row, rfl⟩

lemma embedLookup_error_eq {tbl : List (List ℚ)} {i : Int} {e : PEError}
    (h : embedLookup tbl i = .error e) : e = .indexOutOfRange := by
  unfold embedLookup at h
  split at h
  · cases hg : tbl.get? i.toNat with
    | none => rw [hg] at h; cases h; rfl
    | some row => rw [hg] at h; cases h
  · cases h; rfl

lemma embedLookup_error_of_outOfRange {tbl : List (List ℚ)} {i : Int}
    (h : i < 0 ∨ (tbl.length : Int) ≤ i) :
    embedLookup tbl i = .error .indexOutOfRange := by
  unfold embedLookup
  rcases h with h | h
  · rw [if_neg (by omega)]
  · rw [if_pos (by omega)]
    have hlen : tbl.length ≤ i.toNat := by omega
    rw [List.get?_eq_none.mpr hlen]

lemma applyTransform_mkLinear_length (acts : Acts) (t1 : Linear)
    (wf : Nat → Nat → ℚ) (bf : Nat → ℚ) (i o : Nat) (v : List ℚ) :
    (applyTransform acts (t1, mkLinear wf bf i o) v).length = o := by
  simp [applyTransform, linearApply_mkLinear_length]

lemma lookupRow_ok (tbl : List (List ℚ)) :
    ∀ (row : List Int), (∀ i ∈ row, 0 ≤ i ∧ i.toNat < tbl.length) →
      ∃ tr, mapEx (embedLookup tbl) row = .ok tr ∧
        tr.length = row.length ∧ ∀ v ∈ tr, v ∈ tbl := by
  intro row
  induction row with
  | nil => intro _; exact ⟨[], rfl, rfl, by simp⟩
  | cons i is ih =>
    intro h
    obtain ⟨h0, hlt⟩ := h i (List.mem_cons_self i is)
    obtain ⟨r, hr⟩ := embedLookup_ok_of_inRange h0 hlt
    obtain ⟨tr, htr, hlen, hmem⟩ := ih (fun j hj => h j (List.mem_cons_of_mem i hj))
    refine ⟨r :: tr, ?_, ?_, ?_⟩
    · simp [mapEx, hr, htr]
    · simp [hlen]
    · intro v hv
      rcases List.mem_cons.mp hv with rfl | hv'
      · exact embedLookup_ok_mem hr
      · exact hmem v hv'

lemma lookupTensor_ok (tbl : List (List ℚ)) :
    ∀ (x : List (List Int)),
      (∀ row ∈ x, ∀ i ∈ row, 0 ≤ i ∧ i.toNat < tbl.length) →
      ∃ tokens, mapEx (mapEx (embedLookup tbl)) x = .ok tokens ∧
        List.Forall₂ (fun xr tr => tr.length = xr.length) x tokens ∧
        ∀ tr ∈ tokens, ∀ v ∈ tr, v ∈ tbl := by
  intro x
  induction x with
  | nil => intro _; exact ⟨[], rfl, List.Forall₂.nil, by simp⟩
  | cons row rows ih =>
    intro h
    obtain ⟨tr, htr, hlen, hmem⟩ :=
      lookupRow_ok tbl row (h row (List.mem_cons_self row rows))
    obtain ⟨tokens, htok, hfa, hmems⟩ :=
      ih (fun r hr => h r (List.mem_cons_of_mem row hr))
    refine ⟨tr :: tokens, ?_, List.Forall₂.cons hlen hfa, ?_⟩
    · simp [mapEx, htr, htok]
    · intro t ht
      rcases List.mem_cons.mp ht with rfl | ht'
      · exact hmem
      · exact hmems t ht'

/-- Core shape fact: on an encoder built by `__init__` from a
configuration whose `forward` branch agrees with its construction
branch (`prefix_projection = false` or `inference_mode = false`), a
forward call on any in-range index tensor succeeds and every output
vector has the full width `num_layers * 2 * token_dim`, with the outer
two dimensions following the input. -/
lemma init_forward_shape (cfg : PrefixTuningConfig) (p : ParamInit)
    (acts : Acts) (e : PrefixEncoder)
    (he : PrefixEncoder.init cfg p = .ok e)
    (hmode : cfg.prefix_projection = false ∨ cfg.inference_mode = false)
    (x : List (List Int))
    (hin : ∀ row ∈ x, ∀ i ∈ row, 0 ≤ i ∧ i.toNat < cfg.num_virtual_tokens) :
    ∃ y, e.forward acts x = .ok y ∧ y.length = x.length ∧
      List.Forall₂ (fun xr yr => yr.length = xr.length) x y ∧
      ∀ row ∈ y, ∀ v ∈ row, v.length = cfg.num_layers * 2 * cfg.token_dim := by
  unfold PrefixEncoder.init at he
  by_cases hc : (cfg.prefix_projection && !cfg.inference_mode) = true
  · -- projection is active at construction time
    rw [if_pos hc] at he
    have hpp : cfg.prefix_projection = true := by
      simpa using (Bool.and_eq_true _ _ |>.mp hc).1
    obtain ⟨tokens, htok, hfa, hmems⟩ :=
      lookupTensor_ok (mkMat p.embW cfg.num_virtual_tokens cfg.token_dim) x
        (by simpa [mkMat_length] using hin)
    by_cases hcc : cfg.use_residual_connect = true
    · rw [if_pos hcc] at he
      cases he
      unfold PrefixEncoder.forward
      simp only [hpp, hcc, htok, Bool.true_or, if_true]
      refine ⟨_, rfl, ?_, ?_, ?_⟩
      · simp [hfa.length_eq]
      · rw [List.forall₂_map_right_iff]
        exact hfa.imp (fun a b h => by simp [h])
      · intro row hrow v hv
        simp only [List.mem_map] at hrow
        obtain ⟨tr, _, rfl⟩ := hrow
        simp only [List.mem_map] at hv
        obtain ⟨u, _, rfl⟩ := hv
        exact applyTransform2_mkLinear_length ..
    · rw [if_neg hcc] at he
      have hcc' : cfg.use_residual_connect = false := Bool.eq_false_iff.mpr hcc
      by_cases hcb : cfg.use_residual_block = true
      · rw [if_pos hcb] at he
        cases hh : cfg.encoder_hidden_size with
        | none => rw [hh] at he; cases he
        | some hdim =>
          rw [hh] at he
          cases he
          unfold PrefixEncoder.forward
          simp only [hpp, hcc', hcb, htok, Bool.false_or, if_true]
          refine ⟨_, rfl, ?_, ?_, ?_⟩
          · simp [hfa.length_eq]
          · rw [List.forall₂_map_right_iff]
            exact hfa.imp (fun a b h => by simp [h])
          · intro row hrow v hv
            simp only [List.mem_map] at hrow
            obtain ⟨tr, _, rfl⟩ := hrow
            simp only [List.mem_map] at hv
            obtain ⟨u, _, rfl⟩ := hv
            exact applyTransform2_mkLinear_length ..
      · rw [if_neg hcb] at he
        have hcb' : cfg.use_residual_block = false := Bool.eq_false_iff.mpr hcb
        cases hh : cfg.encoder_hidden_size with
        | none => rw [hh] at he; cases he
        | some hdim =>
          rw [hh] at he
          cases he
          unfold PrefixEncoder.forward
          simp only [hpp, hcc', hcb', htok, Bool.or_self, Bool.false_eq_true,
            if_true, if_false]
          refine ⟨_, rfl, ?_, ?_, ?_⟩
          · simp [hfa.length_eq]
          · rw [List.forall₂_map_right_iff]
            exact hfa.imp (fun a b h => by simp [h])
          · intro row hrow v hv
            simp only [List.mem_map] at hrow
            obtain ⟨tr, _, rfl⟩ := hrow
            simp only [List.mem_map] at hv
            obtain ⟨u, _, rfl⟩ := hv
            exact applyTransform_mkLinear_length ..
  · -- no projection at construction time; `hmode` forces
    -- `prefix_projection = false`, so `forward` takes the lookup branch
    rw [if_neg hc] at he
    cases he
    have hpp : cfg.prefix_projection = false := by
      cases hpb : cfg.prefix_projection with
      | false => rfl
      | true =>
        rcases hmode with h | h
        · rw [hpb] at h; cases h
        · exact absurd (by simp [hpb, h]) hc
    obtain ⟨tokens, htok, hfa, hmems⟩ :=
      lookupTensor_ok
        (mkMat p.embW cfg.num_virtual_tokens (cfg.num_layers * 2 * cfg.token_dim)) x
        (by simpa [mkMat_length] using hin)
    unfold PrefixEncoder.forward
    simp only [hpp, Bool.false_eq_true, if_false]
    refine ⟨tokens, htok, by simp [hfa.length_eq], hfa, ?_⟩
    intro row hrow v hv
    exact mkMat_mem_length (hmems row hrow v hv)

lemma addVec_self (v : List ℚ) : addVec v v = v.map (fun q => 2 * q) := by
  induction v with
  | nil => rfl
  | cons a as ih =>
    simp only [addVec, List.zipWith_cons_cons, List.map_cons, two_mul] at ih ⊢
    exact congrArg (List.cons (a + a)) ih

lemma forall2_length_mem {x : List (List Int)} {y : List (List (List ℚ))}
    {n : Nat}
    (h : List.Forall₂ (fun xr yr => yr.length = xr.length) x y)
    (hx : ∀ xr ∈ x, xr.length = n) : ∀ yr ∈ y, yr.length = n := by
  induction h with
  | nil => intro yr h; simp at h
  | @cons a b as bs h1 h2 ih =>
    intro yr hyr
    rcases List.mem_cons.mp hyr with rfl | hyr'
    · rw [h1]; exact hx a (List.mem_cons_self a as)
    · exact ih (fun xr hxr => hx xr (List.mem_cons_of_mem a hxr)) yr hyr'

lemma init_embedding_length (cfg : PrefixTuningConfig) (p : ParamInit)
    (e : PrefixEncoder) (he : PrefixEncoder.init cfg p = .ok e) :
    e.embedding.length = cfg.num_virtual_tokens := by
  unfold PrefixEncoder.init at he
  split at he
  · split at he
    · cases he; simp [mkMat_length]
    · split at he
      · split at he
        · cases he
        · cases he; simp [mkMat_length]
      · split at he
        · cases he
        · cases he; simp [mkMat_length]
  · cases he; simp [mkMat_length]

lemma lookupTensor_error (tbl : List (List ℚ)) (x : List (List Int))
    (hx : ∃ row ∈ x, ∃ i ∈ row, i < 0 ∨ (tbl.length : Int) ≤ i) :
    mapEx (mapEx (embedLookup tbl)) x = .error .indexOutOfRange := by
  apply mapEx_error_of
  · intro row _ e he
    obtain ⟨a, _, ha⟩ := mapEx_error_mem he
    exact embedLookup_error_eq ha
  · obtain ⟨row, hrow, i, hi, hioor⟩ := hx
    refine ⟨row, hrow, ?_⟩
    apply mapEx_error_of
    · intro a _ e he
      exact embedLookup_error_eq he
    · exact ⟨i, hi, embedLookup_error_of_outOfRange hioor⟩

lemma forward_error_aux (acts : Acts) (e : PrefixEncoder)
    (x : List (List Int))
    (hx : ∃ row ∈ x, ∃ i ∈ row, i < 0 ∨ (e.embedding.length : Int) ≤ i) :
    e.forward acts x = .error .indexOutOfRange := by
  have hl := lookupTensor_error e.embedding x hx
  unfold PrefixEncoder.forward
  cases hpp : e.prefix_projection with
  | false => simp [hl]
  | true => simp [hl]

lemma init_forward_tensor3 (cfg : PrefixTuningConfig) (p : ParamInit)
    (acts : Acts) (e : PrefixEncoder)
    (he : PrefixEncoder.init cfg p = .ok e)
    (hmode : cfg.prefix_projection = false ∨ cfg.inference_mode = false)
    (x : List (List Int))
    (hlen : ∀ row ∈ x, row.length = cfg.num_virtual_tokens)
    (hin : ∀ row ∈ x, ∀ i ∈ row, 0 ≤ i ∧ i.toNat < cfg.num_virtual_tokens) :
    ∃ y, e.forward acts x = .ok y ∧
      tensor3Shape y x.length cfg.num_virtual_tokens
        (2 * cfg.num_layers * cfg.token_dim) := by
  obtain ⟨y, hy, hylen, hfa, hwid⟩ :=
    init_forward_shape cfg p acts e he hmode x hin
  refine ⟨y, hy, hylen, ?_⟩
  intro row hrow
  refine ⟨forall2_length_mem hfa hlen row hrow, ?_⟩
  intro v hv
  rw [hwid row hrow v hv]
  ring

/-! ### Claim theorems -/

/-- C1 (counterexample): the claim fails as stated.  The configuration
`cfgInfProj` (`prefix_projection = true`, `inference_mode = true`) is
valid — construction succeeds — yet a forward call on the in-range
index tensor `[[0]]` of shape `(batch, num_virtual_tokens) = (1, 1)`
raises an `AttributeError` (the projection branch of `forward` touches
`self.transform`, which the inference-mode construction never
allocated) instead of returning a tensor. -/
theorem forward_infmode_mismatch_cex :
    PrefixEncoder.init cfgInfProj p0 = .ok encInfProj ∧
    cfgInfProj.prefix_projection = true ∧
    cfgInfProj.inference_mode = true ∧
    cfgInfProj.num_virtual_tokens = 1 ∧
    encInfProj.forward acts0 [[0]] = .error .missingModule :=
  ⟨rfl, rfl, rfl, rfl, rfl⟩

/-- C1 (amended): for every valid configuration with
`prefix_projection = false` or `inference_mode = false` (not
`inference_mode = true`: with `prefix_projection = true` and
`inference_mode = true` the forward call fails on a missing attribute),
and every in-range index tensor of shape `(batch, num_virtual_tokens)`,
forward returns a tensor of shape
`(batch, num_virtual_tokens, 2*num_layers*token_dim)`; moreover every
configuration with `prefix_projection = false` or
`inference_mode = true` constructs successfully regardless of
`token_dim` and `encoder_hidden_size`. -/
theorem prefix_forward_shape (cfg : PrefixTuningConfig) (p : ParamInit)
    (acts : Acts) :
    (∀ e, PrefixEncoder.init cfg p = .ok e →
      cfg.prefix_projection = false ∨ cfg.inference_mode = false →
      ∀ x : List (List Int),
        (∀ row ∈ x, row.length = cfg.num_virtual_tokens) →
        (∀ row ∈ x, ∀ i ∈ row, 0 ≤ i ∧ i.toNat < cfg.num_virtual_tokens) →
        ∃ y, e.forward acts x = .ok y ∧
          tensor3Shape y x.length cfg.num_virtual_tokens
            (2 * cfg.num_layers * cfg.token_dim)) ∧
    (cfg.prefix_projection = false ∨ cfg.inference_mode = true →
      ∃ e, PrefixEncoder.init cfg p = .ok e) := by
  constructor
  · intro e he hmode x hlen hin
    exact init_forward_tensor3 cfg p acts e he hmode x hlen hin
  · intro hmode
    unfold PrefixEncoder.init
    have hc : (cfg.prefix_projection && !cfg.inference_mode) = false := by
      rcases hmode with h | h <;> simp [h]
    rw [if_neg (by simp [hc])]
    exact ⟨_, rfl⟩

/-- C1 (witness): the spec's concrete scenario, shape
`(1, 3, 16)` on input `[[0, 1, 2]]`. -/
theorem prefix_forward_shape_witness :
    ∃ y, encPlain.forward acts0 [[0, 1, 2]] = .ok y ∧
      tensor3Shape y 1 3 16 := by
  have h := (prefix_forward_shape cfgPlain p0 acts0).1 encPlain rfl
    (Or.inr rfl) [[0, 1, 2]] (by decide) (by decide)
  simpa using h

/-- C2: in residual mode (`prefix_projection = true`,
`inference_mode = false`, `use_residual_connect = true` or
`use_residual_block = true`) the encoder holds a stage A
(`transform_1`) and a stage B (`transform_2`); forward looks up the
embeddings and maps each embedding vector `v` to
`transform_2 (transform_1 v + v)` — the residual sum is fed to
stage B — and whenever stage A acts as the identity on a vector the
sum fed to stage B equals `2 ×` that vector. -/
theorem residual_forward_structure (cfg : PrefixTuningConfig)
    (p : ParamInit) (acts : Acts)
    (hpp : cfg.prefix_projection = true)
    (hinf : cfg.inference_mode = false)
    (hres : cfg.use_residual_connect = true ∨ cfg.use_residual_block = true)
    (e : PrefixEncoder) (he : PrefixEncoder.init cfg p = .ok e) :
    ∃ s l2, e.transform_1 = some s ∧ e.transform_2 = some l2 ∧
      (∀ x tokens,
        mapEx (mapEx (embedLookup e.embedding)) x = .ok tokens →
        e.forward acts x = .ok (tokens.map (fun row =>
          row.map (fun v =>
            applyTransform2 acts l2 (residualInput acts s v))))) ∧
      (∀ v : List ℚ, applyStage1 acts s v = v →
        residualInput acts s v = v.map (fun q => 2 * q)) := by
  unfold PrefixEncoder.init at he
  rw [if_pos (by simp [hpp, hinf])] at he
  by_cases hcc : cfg.use_residual_connect = true
  · rw [if_pos hcc] at he
    cases he
    refine ⟨_, _, rfl, rfl, ?_, ?_⟩
    · intro x tokens htok
      unfold PrefixEncoder.forward
      simp only [hpp, hcc, htok, Bool.true_or, if_true]
    · intro v hv
      unfold residualInput
      rw [hv]
      exact addVec_self v
  · rw [if_neg hcc] at he
    have hcc' : cfg.use_residual_connect = false := Bool.eq_false_iff.mpr hcc
    have hcb : cfg.use_residual_block = true := by
      rcases hres with h | h
      · exact absurd h hcc
      · exact h
    rw [if_pos hcb] at he
    cases hh : cfg.encoder_hidden_size with
    | none => rw [hh] at he; cases he
    | some hdim =>
      rw [hh] at he
      cases he
      refine ⟨_, _, rfl, rfl, ?_, ?_⟩
      · intro x tokens htok
        unfold PrefixEncoder.forward
        simp only [hpp, hcc', hcb, htok, Bool.false_or, if_true]
      · intro v hv
        unfold residualInput
        rw [hv]
        exact addVec_self v

/-- C2 (witness): the residual-connect configuration `cfgRes` and its
encoder `encRes`, evaluated on the index tensor `[[0, 1]]`. -/
theorem residual_forward_structure_witness :
    ∃ s l2, encRes.transform_1 = some s ∧ encRes.transform_2 = some l2 ∧
      (∀ x tokens,
        mapEx (mapEx (embedLookup encRes.embedding)) x = .ok tokens →
        encRes.forward acts0 x = .ok (tokens.map (fun row =>
          row.map (fun v =>
            applyTransform2 acts0 l2 (residualInput acts0 s v))))) ∧
      (∀ v : List ℚ, applyStage1 acts0 s v = v →
        residualInput acts0 s v = v.map (fun q => 2 * q)) :=
  residual_forward_structure cfgRes p0 acts0 rfl rfl (Or.inl rfl) encRes rfl

/-- C3: with `prefix_projection = true`, `inference_mode = false` and
`encoder_hidden_size` unset, selecting a projection path that needs the
hidden size (the residual-block path, or the plain path with both
residual flags false) makes construction fail immediately with the
configuration error `invalidDim` — `__init__` itself returns the error,
no encoder is ever produced, so no deferred numeric failure can occur. -/
theorem init_fails_without_hidden_size (cfg : PrefixTuningConfig)
    (p : ParamInit)
    (hpp : cfg.prefix_projection = true)
    (hinf : cfg.inference_mode = false)
    (hehs : cfg.encoder_hidden_size = none)
    (hsel : (cfg.use_residual_block = true ∧ cfg.use_residual_connect = false) ∨
            (cfg.use_residual_connect = false ∧ cfg.use_residual_block = false)) :
    PrefixEncoder.init cfg p = .error .invalidDim := by
  have hcc : cfg.use_residual_connect = false := by
    rcases hsel with ⟨_, h⟩ | ⟨h, _⟩ <;> exact h
  unfold PrefixEncoder.init
  rw [if_pos (by simp [hpp, hinf]), if_neg (by simp [hcc])]
  cases hb : cfg.use_residual_block <;> simp [hehs]

/-- C3 (witness): the concrete residual-block configuration
`cfgBlockNoHidden` with unset `encoder_hidden_size` is rejected at
construction. -/
theorem init_fails_without_hidden_size_witness :
    PrefixEncoder.init cfgBlockNoHidden p0 = .error .invalidDim :=
  init_fails_without_hidden_size cfgBlockNoHidden p0 rfl rfl rfl
    (Or.inl ⟨rfl, rfl⟩)

/-- C4: when both residual flags are true (with `prefix_projection =
true`, `inference_mode = false`), `use_residual_connect` silently takes
precedence: construction succeeds and produces an encoder whose
embedding and all transform submodules coincide with those of the
encoder built from the same configuration with
`use_residual_block = false`, and whose forward behaviour is identical
on every input. -/
theorem res_connect_precedence (cfg : PrefixTuningConfig) (p : ParamInit)
    (hpp : cfg.prefix_projection = true)
    (hinf : cfg.inference_mode = false)
    (hcc : cfg.use_residual_connect = true)
    (_hcb : cfg.use_residual_block = true) :
    ∃ e e', PrefixEncoder.init cfg p = .ok e ∧
      PrefixEncoder.init { cfg with use_residual_block := false } p = .ok e' ∧
      e.embedding = e'.embedding ∧
      e.transform_1 = e'.transform_1 ∧
      e.transform_2 = e'.transform_2 ∧
      e.transform = e'.transform ∧
      ∀ acts x, e.forward acts x = e'.forward acts x := by
  have h1 : PrefixEncoder.init cfg p = .ok
      ⟨cfg.prefix_projection, cfg.use_residual_connect,
       cfg.use_residual_block,
       mkMat p.embW cfg.num_virtual_tokens cfg.token_dim,
       some (.single (mkLinear p.t1W p.t1B cfg.token_dim cfg.token_dim)),
       some (mkLinear p.t2W p.t2B cfg.token_dim
         (cfg.num_layers * 2 * cfg.token_dim)),
       none⟩ := by
    unfold PrefixEncoder.init
    rw [if_pos (by simp [hpp, hinf]), if_pos hcc]
  have h2 : PrefixEncoder.init { cfg with use_residual_block := false } p = .ok
      ⟨cfg.prefix_projection, cfg.use_residual_connect, false,
       mkMat p.embW cfg.num_virtual_tokens cfg.token_dim,
       some (.single (mkLinear p.t1W p.t1B cfg.token_dim cfg.token_dim)),
       some (mkLinear p.t2W p.t2B cfg.token_dim
         (cfg.num_layers * 2 * cfg.token_dim)),
       none⟩ := by
    unfold PrefixEncoder.init
    rw [if_pos (by simp [hpp, hinf]), if_pos (by simp [hcc])]
  refine ⟨_, _, h1, h2, rfl, rfl, rfl, rfl, ?_⟩
  intro acts x
  unfold PrefixEncoder.forward
  simp only [hcc, Bool.true_or, if_true]

/-- C4 (witness): the both-flags-true configuration `cfgBoth`. -/
theorem res_connect_precedence_witness :
    ∃ e e', PrefixEncoder.init cfgBoth p0 = .ok e ∧
      PrefixEncoder.init { cfgBoth with use_residual_block := false } p0 =
        .ok e' ∧
      e.embedding = e'.embedding ∧
      e.transform_1 = e'.transform_1 ∧
      e.transform_2 = e'.transform_2 ∧
      e.transform = e'.transform ∧
      ∀ acts x, e.forward acts x = e'.forward acts x :=
  res_connect_precedence cfgBoth p0 rfl rfl rfl rfl

/-- C5: in the plain-projection branch (`prefix_projection = true`,
`inference_mode = false`, both residual flags false) the encoder holds
exactly one sequential transform — `Linear(token_dim,
encoder_hidden_size)`, `Tanh`, `Linear(encoder_hidden_size,
2*num_layers*token_dim)` — and no residual stages
(`transform_1 = transform_2 = none`); forward applies that transform
directly to the embedding lookup, with no residual addition anywhere
(`applyTransform` is `linearApply ∘ tanh ∘ linearApply`). -/
theorem plain_forward_structure (cfg : PrefixTuningConfig)
    (p : ParamInit) (acts : Acts)
    (hpp : cfg.prefix_projection = true)
    (hinf : cfg.inference_mode = false)
    (hcc : cfg.use_residual_connect = false)
    (hcb : cfg.use_residual_block = false)
    (e : PrefixEncoder) (he : PrefixEncoder.init cfg p = .ok e) :
    ∃ h l1 l2, cfg.encoder_hidden_size = some h ∧
      l1 = mkLinear p.t1W p.t1B cfg.token_dim h ∧
      l2 = mkLinear p.t2W p.t2B h (cfg.num_layers * 2 * cfg.token_dim) ∧
      e.transform = some (l1, l2) ∧
      e.transform_1 = none ∧ e.transform_2 = none ∧
      ∀ x tokens,
        mapEx (mapEx (embedLookup e.embedding)) x = .ok tokens →
        e.forward acts x = .ok (tokens.map (fun row =>
          row.map (fun v => linearApply l2 ((linearApply l1 v).map acts.tanh)))) := by
  unfold PrefixEncoder.init at he
  rw [if_pos (by simp [hpp, hinf]), if_neg (by simp [hcc]),
    if_neg (by simp [hcb])] at he
  cases hh : cfg.encoder_hidden_size with
  | none => rw [hh] at he; cases he
  | some hdim =>
    rw [hh] at he
    cases he
    refine ⟨hdim, _, _, rfl, rfl, rfl, rfl, rfl, rfl, ?_⟩
    intro x tokens htok
    unfold PrefixEncoder.forward
    simp only [hpp, hcc, hcb, htok, Bool.or_self, Bool.false_eq_true,
      if_true, if_false]
    rfl

/-- C5 (witness): the spec's concrete plain configuration `cfgPlain`
and its encoder `encPlain`. -/
theorem plain_forward_structure_witness :
    ∃ h l1 l2, cfgPlain.encoder_hidden_size = some h ∧
      l1 = mkLinear p0.t1W p0.t1B cfgPlain.token_dim h ∧
      l2 = mkLinear p0.t2W p0.t2B h
        (cfgPlain.num_layers * 2 * cfgPlain.token_dim) ∧
      encPlain.transform = some (l1, l2) ∧
      encPlain.transform_1 = none ∧ encPlain.transform_2 = none ∧
      ∀ x tokens,
        mapEx (mapEx (embedLookup encPlain.embedding)) x = .ok tokens →
        encPlain.forward acts0 x = .ok (tokens.map (fun row =>
          row.map (fun v =>
            linearApply l2 ((linearApply l1 v).map acts0.tanh)))) :=
  plain_forward_structure cfgPlain p0 acts0 rfl rfl rfl rfl encPlain rfl

/-- C6: for every constructed encoder, a forward call on an index
tensor containing at least one negative value or one value `≥
num_virtual_tokens` (including `num_virtual_tokens` itself) fails with
the out-of-range error, never returning a tensor. -/
theorem forward_outOfRange_error (cfg : PrefixTuningConfig)
    (p : ParamInit) (e : PrefixEncoder)
    (he : PrefixEncoder.init cfg p = .ok e)
    (acts : Acts) (x : List (List Int))
    (hx : ∃ row ∈ x, ∃ i ∈ row,
      i < 0 ∨ (cfg.num_virtual_tokens : Int) ≤ i) :
    e.forward acts x = .error .indexOutOfRange := by
  apply forward_error_aux
  rw [init_embedding_length cfg p e he]
  exact hx

/-- C6 (witness): index value `2 = num_virtual_tokens` (one past the
maximum) on the encoder of `cfgNoProj`. -/
theorem forward_outOfRange_error_witness :
    encNoProj.forward acts0 [[2]] = .error .indexOutOfRange :=
  forward_outOfRange_error cfgNoProj p0 encNoProj rfl acts0 [[2]]
    ⟨[2], by decide, 2, by decide, by decide⟩

/-- C7 (counterexample): the claim fails as stated.  The encoder built
from `cfgNoProj` has `num_virtual_tokens = 2`, yet a forward call on
the index tensor `[[0]]` — rank 2 but of shape `(1, 1)`, not
`(batch, num_virtual_tokens)` — returns a result instead of failing:
`forward` performs no shape validation on its input. -/
theorem forward_no_shape_check_cex :
    PrefixEncoder.init cfgNoProj p0 = .ok encNoProj ∧
    cfgNoProj.num_virtual_tokens = 2 ∧
    encNoProj.forward acts0 [[0]] = .ok [[[0, 0]]] :=
  ⟨rfl, rfl, rfl⟩

/-- C7 (amended): `forward` performs no rank/shape check on its input
index tensor.  For every constructed encoder whose forward branch
agrees with its construction branch (`prefix_projection = false` or
`inference_mode = false`), a call on ANY rank-2 index tensor with
in-range values — whatever its row lengths — succeeds and returns a
tensor whose first dimension is the batch, whose second dimension
follows each input row's length, and whose last dimension is
`2*num_layers*token_dim`. -/
theorem forward_no_shape_check (cfg : PrefixTuningConfig) (p : ParamInit)
    (acts : Acts) (e : PrefixEncoder)
    (he : PrefixEncoder.init cfg p = .ok e)
    (hmode : cfg.prefix_projection = false ∨ cfg.inference_mode = false)
    (x : List (List Int))
    (hin : ∀ row ∈ x, ∀ i ∈ row, 0 ≤ i ∧ i.toNat < cfg.num_virtual_tokens) :
    ∃ y, e.forward acts x = .ok y ∧ y.length = x.length ∧
      List.Forall₂ (fun xr yr => yr.length = xr.length) x y ∧
      ∀ row ∈ y, ∀ v ∈ row, v.length = 2 * cfg.num_layers * cfg.token_dim := by
  obtain ⟨y, hy, hylen, hfa, hwid⟩ :=
    init_forward_shape cfg p acts e he hmode x hin
  refine ⟨y, hy, hylen, hfa, ?_⟩
  intro row hrow v hv
  rw [hwid row hrow v hv]
  ring

/-- C7 (witness): the shape-`(1, 1)` input `[[0]]` against an encoder
with `num_virtual_tokens = 2` yields a (1, 1, 2)-shaped result. -/
theorem forward_no_shape_check_witness :
    ∃ y, encNoProj.forward acts0 [[0]] = .ok y ∧ y.length = 1 ∧
      List.Forall₂ (fun (xr : List Int) (yr : List (List ℚ)) =>
        yr.length = xr.length) [[0]] y ∧
      ∀ row ∈ y, ∀ v ∈ row, v.length = 2 := by
  have h := forward_no_shape_check cfgNoProj p0 acts0 encNoProj rfl
    (Or.inl rfl) [[0]] (by decide)
  simpa using h

/-- C8: forward is deterministic — two calls with identical parameter
values (all fields of the encoder equal) and identical input index
tensors produce identical outputs. -/
theorem forward_deterministic (acts : Acts) (e1 e2 : PrefixEncoder)
    (x1 x2 : List (List Int))
    (h1 : e1.prefix_projection = e2.prefix_projection)
    (h2 : e1.use_res_connect = e2.use_res_connect)
    (h3 : e1.use_res_block = e2.use_res_block)
    (h4 : e1.embedding = e2.embedding)
    (h5 : e1.transform_1 = e2.transform_1)
    (h6 : e1.transform_2 = e2.transform_2)
    (h7 : e1.transform = e2.transform)
    (hx : x1 = x2) :
    e1.forward acts x1 = e2.forward acts x2 := by
  have he : e1 = e2 := by
    obtain ⟨a1, b1, c1, d1, f1, g1, t1⟩ := e1
    obtain ⟨a2, b2, c2, d2, f2, g2, t2⟩ := e2
    rw [PrefixEncoder.mk.injEq]
    exact ⟨h1, h2, h3, h4, h5, h6, h7⟩
  rw [he, hx]

/-- C8 (witness): two identical calls on the `cfgNoProj` encoder. -/
theorem forward_deterministic_witness :
    encNoProj.forward acts0 [[0, 1]] = encNoProj.forward acts0 [[0, 1]] :=
  forward_deterministic acts0 encNoProj encNoProj [[0, 1]] [[0, 1]]
    rfl rfl rfl rfl rfl rfl rfl rfl

/-- C9: a forward call leaves the encoder unchanged — viewed as a state
transformer on the module object, the call returns the pre-state
unmodified together with the forward result (the method body only
reads the embedding table, the transform parameters and the topology
flags). -/
theorem forward_pure_state (acts : Acts) (e : PrefixEncoder)
    (x : List (List Int)) :
    (e.forwardCall acts x).1.prefix_projection = e.prefix_projection ∧
    (e.forwardCall acts x).1.use_res_connect = e.use_res_connect ∧
    (e.forwardCall acts x).1.use_res_block = e.use_res_block ∧
    (e.forwardCall acts x).1.embedding = e.embedding ∧
    (e.forwardCall acts x).1.transform_1 = e.transform_1 ∧
    (e.forwardCall acts x).1.transform_2 = e.transform_2 ∧
    (e.forwardCall acts x).1.transform = e.transform ∧
    (e.forwardCall acts x).2 = e.forward acts x :=
  ⟨rfl, rfl, rfl, rfl, rfl, rfl, rfl, rfl⟩

/-- C10: with `prefix_projection = true`, `inference_mode = false` and
`use_residual_connect = true`, neither construction nor forward ever
reads `encoder_hidden_size`: construction yields the same encoder
whatever that field holds (in particular when it is unset), it
succeeds, and forward returns a tensor of shape
`(batch, num_virtual_tokens, 2*num_layers*token_dim)` — stage A is a
`token_dim → token_dim` linear map and stage B maps
`token_dim → 2*num_layers*token_dim`. -/
theorem res_connect_ignores_hidden_size (cfg : PrefixTuningConfig)
    (p : ParamInit) (acts : Acts)
    (hpp : cfg.prefix_projection = true)
    (hinf : cfg.inference_mode = false)
    (hcc : cfg.use_residual_connect = true) :
    (∀ h, PrefixEncoder.init cfg p =
      PrefixEncoder.init { cfg with encoder_hidden_size := h } p) ∧
    ∃ e, PrefixEncoder.init cfg p = .ok e ∧
      ∀ x : List (List Int),
        (∀ row ∈ x, row.length = cfg.num_virtual_tokens) →
        (∀ row ∈ x, ∀ i ∈ row, 0 ≤ i ∧ i.toNat < cfg.num_virtual_tokens) →
        ∃ y, e.forward acts x = .ok y ∧
          tensor3Shape y x.length cfg.num_virtual_tokens
            (2 * cfg.num_layers * cfg.token_dim) := by
  have hmk : ∀ (c : PrefixTuningConfig), c.prefix_projection = true →
      c.inference_mode = false → c.use_residual_connect = true →
      PrefixEncoder.init c p = .ok
        ⟨c.prefix_projection, c.use_residual_connect, c.use_residual_block,
         mkMat p.embW c.num_virtual_tokens c.token_dim,
         some (.single (mkLinear p.t1W p.t1B c.token_dim c.token_dim)),
         some (mkLinear p.t2W p.t2B c.token_dim
           (c.num_layers * 2 * c.token_dim)),
         none⟩ := by
    intro c h1 h2 h3
    unfold PrefixEncoder.init
    rw [if_pos (by simp [h1, h2]), if_pos h3]
  constructor
  · intro h
    rw [hmk cfg hpp hinf hcc,
      hmk { cfg with encoder_hidden_size := h } (by simpa using hpp)
        (by simpa using hinf) (by simpa using hcc)]
  · refine ⟨_, hmk cfg hpp hinf hcc, ?_⟩
    intro x hlen hin
    exact init_forward_tensor3 cfg p acts _ (hmk cfg hpp hinf hcc)
      (Or.inr hinf) x hlen hin

/-- C10 (witness): `cfgRes` has `encoder_hidden_size = none`; its
construction coincides with the one where the field is set to `5`, and
forward on `[[0, 1]]` returns a `(1, 2, 2)`-shaped tensor. -/
theorem res_connect_ignores_hidden_size_witness :
    PrefixEncoder.init cfgRes p0 =
      PrefixEncoder.init { cfgRes with encoder_hidden_size := some 5 } p0 ∧
    ∃ y, encRes.forward acts0 [[0, 1]] = .ok y ∧ tensor3Shape y 1 2 2 := by
  obtain ⟨hinv, e, hinit, hshape⟩ :=
    res_connect_ignores_hidden_size cfgRes p0 acts0 rfl rfl rfl
  refine ⟨hinv (some 5), ?_⟩
  have he : PrefixEncoder.init cfgRes p0 = .ok encRes := rfl
  rw [he] at hinit
  cases hinit
  have h := hshape [[0, 1]] (by decide) (by decide)
  simpa using h
